import Mathlib

/-!
Verification of the core of a terminal typing test program: the line
wrapper `split_sentence`, the keystroke reconciler state machine inside
`typing_test`, the word count and WPM computation of `display_results`,
and the session control flow around them.

Strings are modelled as `List Char`; Python float timestamps are modelled
as exact rationals; Python exceptions (TypeError on `float - None`,
ZeroDivisionError on division by zero) are modelled as explicit outcome
constructors.  The `sentence` argument of the session model is the passage
after accent removal (`remove_accents`), which only rewrites individual
characters and is not itself under verification.
-/

namespace TypingTest

/-- Characters treated as whitespace by Python `str.split()` with no
arguments (for the ASCII range): space, tab, LF, CR, VT, FF. -/
def isSpaceChar (c : Char) : Bool :=
  c.toNat = 32 || c.toNat = 9 || c.toNat = 10 || c.toNat = 13 || c.toNat = 11 || c.toNat = 12

/-- Accumulator-based splitter behind `pySplit`; `acc` holds the current
token reversed. -/
def pySplitAux : List Char → List Char → List (List Char)
  | [], acc => if acc = [] then [] else [acc.reverse]
  | c :: cs, acc =>
    if isSpaceChar c then
      if acc = [] then pySplitAux cs []
      else acc.reverse :: pySplitAux cs []
    else pySplitAux cs (c :: acc)

/-- Python `s.split()` with no arguments: split on runs of whitespace,
discarding empty tokens. -/
def pySplit (s : List Char) : List (List Char) := pySplitAux s []

/-- Accumulator-based splitter behind `splitOnSpace`. -/
def splitOnSpaceAux : List Char → List Char → List (List Char)
  | [], acc => [acc.reverse]
  | c :: cs, acc =>
    if c.toNat = 32 then acc.reverse :: splitOnSpaceAux cs []
    else splitOnSpaceAux cs (c :: acc)

/-- Python `s.split(" ")`: split on each single space character, keeping
empty fields (so `"".split(" ") == [""]` has one field). -/
def splitOnSpace (s : List Char) : List (List Char) := splitOnSpaceAux s []

/-- Python `" ".join(ws)`: concatenate with a single space separator. -/
def joinSp : List (List Char) → List Char
  | [] => []
  | [w] => w
  | w :: ws => w ++ Char.ofNat 32 :: joinSp ws

/-- Effective width of `split_sentence`: `max(terminal_width - 15, 1)`
(`buffer_size = 15` padding from the window edges). -/
def safe_width (terminal_width : Int) : Nat :=
  (max (terminal_width - 15) 1).toNat

/-- Greedy word-packing loop of `split_sentence`: `cur` is
`current_line_words`, the second argument the words still to place.  A word
joins the current line when the joined length plus one separator plus the
word fits in `safe`; otherwise the line is closed and the word starts a new
one.  The first word of a line is always accepted. -/
def greedyAux (safe : Nat) : List (List Char) → List (List Char) → List (List (List Char))
  | cur, [] => if cur = [] then [] else [cur]
  | cur, w :: rest =>
    if cur = [] then greedyAux safe [w] rest
    else if (joinSp cur).length + 1 + w.length ≤ safe then greedyAux safe (cur ++ [w]) rest
    else cur :: greedyAux safe [w] rest

/-- Model of `split_sentence(input_str, terminal_width)`: wrap the passage
into lines of at most `safe_width` characters without breaking words,
returning `[]` for empty or whitespace-only input.  The trailing check for
a singleton list holding the empty string mirrors the source. -/
def split_sentence (input_str : List Char) (terminal_width : Int) : List (List Char) :=
  if pySplit input_str = [] then []
  else if ((greedyAux (safe_width terminal_width) [] (pySplit input_str)).map joinSp).length = 1
      ∧ ((greedyAux (safe_width terminal_width) [] (pySplit input_str)).map joinSp).headD [] = []
    then []
  else (greedyAux (safe_width terminal_width) [] (pySplit input_str)).map joinSp

/-- Word count used by `typing_test` for the WPM computation:
`len(sentence.split(" "))`. -/
def typing_test_word_count (sentence : List Char) : Nat :=
  (splitOnSpace sentence).length

/-- State of the keystroke reconciler loop of `typing_test`:
the wrapped lines, the cursor `(current_line, current_pos)`, the per-line
`user_input` buffers, and the optional `start_time` timestamp. -/
structure TTState where
  sentence_list : List (List Char)
  current_line : Nat
  current_pos : Nat
  user_input : List (List Char)
  start_time : Option ℚ
deriving DecidableEq, Repr

/-- The line under the cursor. -/
def lineAt (s : TTState) : List Char := s.sentence_list.getD s.current_line []

/-- The input buffer of the line under the cursor. -/
def bufAt (s : TTState) : List Char := s.user_input.getD s.current_line []

/-- The character the reconciler expects next,
`sentence_list[current_line][current_pos]`. -/
def expectedChar (s : TTState) : Char := (lineAt s).getD s.current_pos (Char.ofNat 0)

/-- Start the session clock on the first key press:
`if start_time is None: start_time = time.time()`. -/
def withStart (now : ℚ) (s : TTState) : TTState :=
  if s.start_time = none then { s with start_time := some now } else s

/-- Correct-key branch of the reconciler: if the typed character equals the
expected one, append it to the current input buffer and advance the column;
an incorrect key changes nothing (the mismatch is only rendered in red). -/
def advanceIfCorrect (k : Nat) (s : TTState) : TTState :=
  if Char.ofNat k = expectedChar s then
    { s with
      user_input := s.user_input.set s.current_line (bufAt s ++ [Char.ofNat k]),
      current_pos := s.current_pos + 1 }
  else s

/-- End-of-line check after a printable key: when the column has reached
the length of the current line, move to the next line at column zero. -/
def wrapLine (len0 : Nat) (s : TTState) : TTState :=
  if s.current_pos = len0 then
    { s with current_line := s.current_line + 1, current_pos := 0 }
  else s

/-- Printable-key branch (`if char:`): guarded by
`current_pos < len(sentence_list[current_line])`, try to advance, then
apply the end-of-line check against the current line's length. -/
def stepPrintable (k : Nat) (s : TTState) : TTState :=
  if s.current_pos < (lineAt s).length then
    wrapLine (lineAt s).length (advanceIfCorrect k s)
  else s

/-- Backspace branch (`key in (8, 127)`): inside a line, retreat one column
and drop the last buffered character; at column zero of a later line, move
to the end of the previous line's input buffer; at `(0, 0)`, do nothing. -/
def stepBackspace (s : TTState) : TTState :=
  if 0 < s.current_pos then
    { s with
      current_pos := s.current_pos - 1,
      user_input := s.user_input.set s.current_line (bufAt s).dropLast }
  else if 0 < s.current_line then
    { s with
      current_line := s.current_line - 1,
      current_pos := (s.user_input.getD (s.current_line - 1) []).length }
  else s

/-- One iteration of the `typing_test` key loop on key code `k` read at
time `now`.  The clock starts on any first key.  Keys 32–126 are printable,
8 and 127 are backspace.  Every other key (including the reload key 18,
which re-invokes the whole session on fresh state and leaves the enclosing
loop's variables untouched) does not change the reconciler state. -/
def step (now : ℚ) (k : Nat) (s : TTState) : TTState :=
  if 32 ≤ k ∧ k ≤ 126 then stepPrintable k (withStart now s)
  else if k = 8 ∨ k = 127 then stepBackspace (withStart now s)
  else withStart now s

/-- Reconciler state at the top of the `while` loop: cursor at the origin,
one empty input buffer per wrapped line, clock unset. -/
def initState (lines : List (List Char)) : TTState :=
  { sentence_list := lines
    current_line := 0
    current_pos := 0
    user_input := List.replicate lines.length []
    start_time := none }

/-- The `while current_line < len(sentence_list)` loop: consume timed key
events while the loop guard holds; remaining events are never read once
the guard fails. -/
def run : List (ℚ × Nat) → TTState → TTState
  | [], s => s
  | (t, k) :: ks, s =>
    if s.current_line < s.sentence_list.length then run ks (step t k s) else s

/-- Python numeric faults that the metrics code can raise. -/
inductive PyErr where
  | zeroDivision
deriving DecidableEq, Repr

/-- Model of the metric computed by `display_results`:
`wpm = (word_count / elapsed_time) * 60` with
`elapsed_time = end_time - start_time`.  Python float division raises
ZeroDivisionError when the elapsed time is zero; the model returns it as
an explicit error. -/
def display_results_wpm (word_count : Nat) (start_time end_time : ℚ) : Except PyErr ℚ :=
  if end_time - start_time = 0 then Except.error PyErr.zeroDivision
  else Except.ok ((word_count : ℚ) / (end_time - start_time) * 60)

/-- Observable ways a `typing_test` call can end. -/
inductive SessionOutcome where
  | apiError
  | typeError
  | zeroDivisionError
  | silentReturn
  | completed (wpm : ℚ)
deriving DecidableEq, Repr

/-- The sentinel title returned by `get_sentence` on a failed fetch. -/
def strError : List Char := "Error".toList

/-- Control flow of one `typing_test` call, fetch and rendering factored
out: an `Error` title returns early; otherwise the passage is wrapped, the
key loop runs, and on loop exit `display_results` is invoked with
`end_time = end_now`.  `none` means the loop is still blocked reading keys.
A never-set `start_time` makes `end_time - start_time` a
`float - None` TypeError; a zero elapsed time raises ZeroDivisionError;
a falsy (zero) `end_time` skips the results display. -/
def typing_test_model (title sentence : List Char) (width : Int)
    (keys : List (ℚ × Nat)) (end_now : ℚ) : Option SessionOutcome :=
  if title = strError then some SessionOutcome.apiError
  else if (run keys (initState (split_sentence sentence width))).current_line <
      (split_sentence sentence width).length then none
  else if end_now = 0 then some SessionOutcome.silentReturn
  else
    match (run keys (initState (split_sentence sentence width))).start_time with
    | none => some SessionOutcome.typeError
    | some t0 =>
      match display_results_wpm (typing_test_word_count sentence) t0 end_now with
      | Except.error _ => some SessionOutcome.zeroDivisionError
      | Except.ok w => some (SessionOutcome.completed w)

/-- The WPM scenario passage. -/
def foxSentence : List Char := "the quick brown fox jumps over the lazy dog".toList

/-- Flawless key events for the scenario passage, all read at time 0. -/
def foxKeys : List (ℚ × Nat) := foxSentence.map (fun c => ((0 : ℚ), c.toNat))

/-- A non-error title for session scenarios. -/
def titleCat : List Char := "Cat".toList

/-! ### Basic facts about the step function -/

@[simp] lemma withStart_sentence_list (now : ℚ) (s : TTState) :
    (withStart now s).sentence_list = s.sentence_list := by
  unfold withStart; split <;> rfl

@[simp] lemma withStart_current_line (now : ℚ) (s : TTState) :
    (withStart now s).current_line = s.current_line := by
  unfold withStart; split <;> rfl

@[simp] lemma withStart_current_pos (now : ℚ) (s : TTState) :
    (withStart now s).current_pos = s.current_pos := by
  unfold withStart; split <;> rfl

@[simp] lemma withStart_user_input (now : ℚ) (s : TTState) :
    (withStart now s).user_input = s.user_input := by
  unfold withStart; split <;> rfl

@[simp] lemma lineAt_withStart (now : ℚ) (s : TTState) :
    lineAt (withStart now s) = lineAt s := by
  unfold lineAt; simp

@[simp] lemma bufAt_withStart (now : ℚ) (s : TTState) :
    bufAt (withStart now s) = bufAt s := by
  unfold bufAt; simp

@[simp] lemma expectedChar_withStart (now : ℚ) (s : TTState) :
    expectedChar (withStart now s) = expectedChar s := by
  unfold expectedChar; simp

lemma step_eq_printable (now : ℚ) (k : Nat) (s : TTState) (hk : 32 ≤ k ∧ k ≤ 126) :
    step now k s = stepPrintable k (withStart now s) := by
  unfold step; rw [if_pos hk]

lemma step_eq_backspace (now : ℚ) (k : Nat) (s : TTState) (hk : k = 8 ∨ k = 127) :
    step now k s = stepBackspace (withStart now s) := by
  rcases hk with h | h <;> subst h <;> unfold step <;> norm_num

lemma step_eq_ignored (now : ℚ) (k : Nat) (s : TTState)
    (h1 : ¬(32 ≤ k ∧ k ≤ 126)) (h2 : ¬(k = 8 ∨ k = 127)) :
    step now k s = withStart now s := by
  unfold step; rw [if_neg h1, if_neg h2]

@[simp] lemma stepPrintable_start_time (k : Nat) (s : TTState) :
    (stepPrintable k s).start_time = s.start_time := by
  unfold stepPrintable wrapLine advanceIfCorrect
  split <;> (try rfl) <;> split <;> (try rfl) <;> split <;> rfl

@[simp] lemma stepBackspace_start_time (s : TTState) :
    (stepBackspace s).start_time = s.start_time := by
  unfold stepBackspace
  split <;> (try rfl) <;> split <;> rfl

lemma step_start_time (now : ℚ) (k : Nat) (s : TTState) :
    (step now k s).start_time = if s.start_time = none then some now else s.start_time := by
  unfold step
  split
  · rw [stepPrintable_start_time]; unfold withStart; split <;> simp_all
  · split
    · rw [stepBackspace_start_time]; unfold withStart; split <;> simp_all
    · unfold withStart; split <;> simp_all

lemma run_start_some (ks : List (ℚ × Nat)) (s : TTState) (t : ℚ)
    (h : s.start_time = some t) : (run ks s).start_time = some t := by
  induction ks generalizing s with
  | nil => exact h
  | cons p ks ih =>
    obtain ⟨tt, k⟩ := p
    unfold run
    split
    · exact ih _ (by rw [step_start_time, h]; simp)
    · exact h

/-! ### Claim theorems about single key-event transitions -/

/-- C2: in any reconciler state inside the line set whose column points at
an expected character, a printable key equal to that character advances the
column by exactly one, moving to the next line's column zero when the end
of the line is reached, while a printable key different from the expected
character leaves both cursor coordinates unchanged. -/
theorem C2_correct_key_advances (s : TTState) (now : ℚ) (k : Nat)
    (hk : 32 ≤ k ∧ k ≤ 126)
    (hL : s.current_line < s.sentence_list.length)
    (hp : s.current_pos < (lineAt s).length) :
    (Char.ofNat k = expectedChar s →
      ((s.current_pos + 1 = (lineAt s).length ∧
          (step now k s).current_line = s.current_line + 1 ∧
          (step now k s).current_pos = 0)
        ∨ (s.current_pos + 1 ≠ (lineAt s).length ∧
          (step now k s).current_line = s.current_line ∧
          (step now k s).current_pos = s.current_pos + 1)))
    ∧ (Char.ofNat k ≠ expectedChar s →
        (step now k s).current_line = s.current_line ∧
        (step now k s).current_pos = s.current_pos) := by
  rw [step_eq_printable now k s hk]
  unfold stepPrintable
  rw [if_pos (by simpa using hp)]
  constructor
  · intro hc
    have ha : advanceIfCorrect k (withStart now s) =
        { withStart now s with
          user_input := (withStart now s).user_input.set (withStart now s).current_line
            (bufAt (withStart now s) ++ [Char.ofNat k]),
          current_pos := (withStart now s).current_pos + 1 } := by
      unfold advanceIfCorrect
      rw [if_pos (by simpa using hc)]
    rw [ha]
    by_cases hend : s.current_pos + 1 = (lineAt s).length
    · left
      unfold wrapLine
      rw [if_pos (by simp [hend])]
      exact ⟨hend, by simp, by simp⟩
    · right
      unfold wrapLine
      rw [if_neg (by simp [hend])]
      exact ⟨hend, by simp, by simp⟩
  · intro hc
    have ha : advanceIfCorrect k (withStart now s) = withStart now s := by
      unfold advanceIfCorrect
      rw [if_neg (by simpa using hc)]
    rw [ha]
    unfold wrapLine
    rw [if_neg (by simpa using Nat.ne_of_lt hp)]
    exact ⟨by simp, by simp⟩

/-- C2 witness: typing the correct first character of the single line
`"ab"` moves the cursor from column 0 to column 1 on the same line. -/
theorem C2_correct_key_advances_witness :
    (step 0 97 (initState ["ab".toList])).current_line = 0 ∧
    (step 0 97 (initState ["ab".toList])).current_pos = 0 + 1 := by
  have h := C2_correct_key_advances (initState ["ab".toList]) 0 97
    (by decide) (by decide) (by decide)
  rcases h.1 (by decide) with ⟨hend, _, _⟩ | ⟨_, h1, h2⟩
  · exact absurd hend (by decide)
  · exact ⟨h1, h2⟩

/-- C3: a backspace key at column zero moves the cursor to the end of the
previous line's input buffer when the line index is positive, and changes
neither the cursor, the input buffers, nor the line set at `(0, 0)`. -/
theorem C3_backspace_boundary (s : TTState) (now : ℚ) (k : Nat)
    (hk : k = 8 ∨ k = 127) (hpos : s.current_pos = 0) :
    (0 < s.current_line →
      (step now k s).current_line = s.current_line - 1 ∧
      (step now k s).current_pos = (s.user_input.getD (s.current_line - 1) []).length ∧
      (step now k s).user_input = s.user_input ∧
      (step now k s).sentence_list = s.sentence_list)
    ∧ (s.current_line = 0 →
      (step now k s).current_line = s.current_line ∧
      (step now k s).current_pos = s.current_pos ∧
      (step now k s).user_input = s.user_input ∧
      (step now k s).sentence_list = s.sentence_list) := by
  rw [step_eq_backspace now k s hk]
  unfold stepBackspace
  rw [if_neg (by simp [hpos])]
  constructor
  · intro hline
    rw [if_pos (by simpa using hline)]
    refine ⟨by simp, by simp, by simp, by simp⟩
  · intro hline
    rw [if_neg (by simp [hline])]
    refine ⟨by simp, by simp, by simp, by simp⟩

/-- C3 witness: with line 0 fully typed and the cursor at `(1, 0)`,
backspace moves to `(0, 2)`, the end of line 0's input buffer; at `(0, 0)`
of a fresh session backspace changes nothing. -/
theorem C3_backspace_boundary_witness :
    ((step 0 8 ⟨["ab".toList, "cd".toList], 1, 0, ["ab".toList, []], none⟩).current_line = 0 ∧
      (step 0 8 ⟨["ab".toList, "cd".toList], 1, 0, ["ab".toList, []], none⟩).current_pos = 2) ∧
    ((step 0 127 (initState ["ab".toList])).current_line = 0 ∧
      (step 0 127 (initState ["ab".toList])).current_pos = 0 ∧
      (step 0 127 (initState ["ab".toList])).user_input = [[]]) := by
  constructor
  · have h := C3_backspace_boundary
      ⟨["ab".toList, "cd".toList], 1, 0, ["ab".toList, []], none⟩ 0 8 (Or.inl rfl) rfl
    obtain ⟨h1, h2, _, _⟩ := h.1 (by decide)
    exact ⟨by simpa using h1, by simpa using h2⟩
  · have h := C3_backspace_boundary (initState ["ab".toList]) 0 127 (Or.inr rfl) rfl
    obtain ⟨h1, h2, h3, _⟩ := h.2 rfl
    exact ⟨h1, h2, by simpa using h3⟩

/-- C10: when the column equals the current line's length (the state a
cross-line backspace produces on a fully typed previous line), any key that
is not a backspace — printable keys, the reload key, and ignored control
codes alike — changes neither the cursor, the input buffers, nor the line
set: the guarded expected-character lookup is skipped entirely. -/
theorem C10_line_end_printable_is_noop (s : TTState) (now : ℚ) (k : Nat)
    (hL : s.current_line < s.sentence_list.length)
    (hp : s.current_pos = (lineAt s).length)
    (hk : ¬(k = 8 ∨ k = 127)) :
    (step now k s).current_line = s.current_line ∧
    (step now k s).current_pos = s.current_pos ∧
    (step now k s).user_input = s.user_input ∧
    (step now k s).sentence_list = s.sentence_list := by
  by_cases hpr : 32 ≤ k ∧ k ≤ 126
  · rw [step_eq_printable now k s hpr]
    unfold stepPrintable
    rw [if_neg (by simp [hp])]
    refine ⟨by simp, by simp, by simp, by simp⟩
  · rw [step_eq_ignored now k s hpr hk]
    refine ⟨by simp, by simp, by simp, by simp⟩

/-- C10 witness: at cursor `(0, 2)` on the fully typed line `"ab"`, the
printable key `c` leaves the whole reconciler state unchanged. -/
theorem C10_line_end_printable_is_noop_witness :
    (step 0 99 ⟨["ab".toList], 0, 2, ["ab".toList], some 1⟩).current_line = 0 ∧
    (step 0 99 ⟨["ab".toList], 0, 2, ["ab".toList], some 1⟩).current_pos = 2 ∧
    (step 0 99 ⟨["ab".toList], 0, 2, ["ab".toList], some 1⟩).user_input = ["ab".toList] := by
  have h := C10_line_end_printable_is_noop
    ⟨["ab".toList], 0, 2, ["ab".toList], some 1⟩ 0 99 (by decide) (by decide) (by decide)
  exact ⟨h.1, h.2.1, h.2.2.1⟩

/-- C8: in a fresh session attempt the clock is unset, the first key event
of any kind sets it to that event's timestamp, and no later event in the
run changes it again. -/
theorem C8_timer_set_once (lines : List (List Char)) (h : lines ≠ [])
    (t : ℚ) (k : Nat) (ks : List (ℚ × Nat)) :
    (initState lines).start_time = none ∧
    (run ((t, k) :: ks) (initState lines)).start_time = some t := by
  refine ⟨rfl, ?_⟩
  unfold run
  rw [if_pos (by simpa [initState] using List.length_pos.mpr h)]
  exact run_start_some ks _ t (by rw [step_start_time]; simp [initState])

/-- C8 witness: on the one-line passage `"a"`, a first key at time 3
followed by another at time 4 leaves the start timestamp at 3. -/
theorem C8_timer_set_once_witness :
    (initState ["a".toList]).start_time = none ∧
    (run [((3 : ℚ), 97), ((4 : ℚ), 98)] (initState ["a".toList])).start_time = some 3 := by
  exact C8_timer_set_once ["a".toList] (by decide) 3 97 [((4 : ℚ), 98)]

/-! ### The input-buffer invariant -/

lemma getD_set_self {α : Type} (l : List α) (i : Nat) (a d : α) (h : i < l.length) :
    (l.set i a).getD i d = a := by
  induction l generalizing i with
  | nil => simp at h
  | cons x xs ih =>
    cases i with
    | zero => rfl
    | succ n => simpa using ih n (by simpa using h)

lemma getD_set_ne {α : Type} (l : List α) (i j : Nat) (a d : α) (h : j ≠ i) :
    (l.set i a).getD j d = l.getD j d := by
  induction l generalizing i j with
  | nil => rfl
  | cons x xs ih =>
    cases i with
    | zero =>
      cases j with
      | zero => exact absurd rfl h
      | succ m => rfl
    | succ n =>
      cases j with
      | zero => rfl
      | succ m => simpa using ih n m (by omega)

lemma getD_replicate_empty (n i : Nat) :
    (List.replicate n ([] : List Char)).getD i [] = [] := by
  induction n generalizing i with
  | zero => cases i <;> rfl
  | succ m ih => cases i with
    | zero => rfl
    | succ j => simpa using ih j

lemma take_succ_getD {α : Type} (l : List α) (n : Nat) (d : α) (h : n < l.length) :
    l.take (n + 1) = l.take n ++ [l.getD n d] := by
  induction l generalizing n with
  | nil => simp at h
  | cons x xs ih =>
    cases n with
    | zero => simp
    | succ m =>
      rw [List.take_succ_cons, List.take_succ_cons, List.getD_cons_succ,
        ih m (by simpa using h)]
      rfl

lemma dropLast_take_of_le {α : Type} (l : List α) (n : Nat) (h : n ≤ l.length) :
    (l.take n).dropLast = l.take (n - 1) := by
  rw [List.dropLast_eq_take, List.take_take, List.length_take]
  congr 1
  omega

/-- Inductive invariant of the reconciler loop: the buffer list is in
lockstep with the line list, every buffer is the prefix of its line given
by its own length, every buffer past the current line is empty, and the
column equals the current buffer's length. -/
def Inv (s : TTState) : Prop :=
  s.user_input.length = s.sentence_list.length
  ∧ (∀ i, s.user_input.getD i [] =
      (s.sentence_list.getD i []).take (s.user_input.getD i []).length)
  ∧ (∀ i, s.current_line < i → s.user_input.getD i [] = [])
  ∧ s.current_pos = (s.user_input.getD s.current_line []).length

lemma Inv_wrapLine (n : Nat) (s : TTState) (hs : Inv s) : Inv (wrapLine n s) := by
  obtain ⟨ha, hb, hc, he⟩ := hs
  unfold wrapLine
  split
  · refine ⟨ha, hb, ?_, ?_⟩
    · intro i hi
      exact hc i (by simp at hi; omega)
    · show (0 : Nat) = _
      rw [hc (s.current_line + 1) (by omega)]
      rfl
  · exact ⟨ha, hb, hc, he⟩

lemma Inv_stepPrintable (k : Nat) (s : TTState) (hs : Inv s)
    (hL : s.current_line < s.sentence_list.length) : Inv (stepPrintable k s) := by
  obtain ⟨ha, hb, hc, he⟩ := hs
  unfold stepPrintable
  split
  case isFalse => exact ⟨ha, hb, hc, he⟩
  case isTrue hp =>
    refine Inv_wrapLine _ _ ?_
    unfold advanceIfCorrect
    split
    case isFalse => exact ⟨ha, hb, hc, he⟩
    case isTrue hcorr =>
      have hcl : s.current_line < s.user_input.length := by omega
      have hbuf : s.user_input.getD s.current_line [] =
          (s.sentence_list.getD s.current_line []).take s.current_pos := by
        have h1 := hb s.current_line
        rw [← he] at h1
        exact h1
      have hp' : s.current_pos < (s.sentence_list.getD s.current_line []).length := hp
      have hnew : bufAt s ++ [Char.ofNat k] =
          (s.sentence_list.getD s.current_line []).take (s.current_pos + 1) := by
        show s.user_input.getD s.current_line [] ++ [Char.ofNat k] = _
        rw [hbuf, hcorr]
        exact (take_succ_getD _ s.current_pos (Char.ofNat 0) hp').symm
      have hlen2 : (bufAt s ++ [Char.ofNat k]).length = s.current_pos + 1 := by
        show (s.user_input.getD s.current_line [] ++ [Char.ofNat k]).length = _
        rw [List.length_append, List.length_singleton]
        omega
      refine ⟨?_, ?_, ?_, ?_⟩
      · show (s.user_input.set _ _).length = _
        rw [List.length_set]
        exact ha
      · intro i
        show (s.user_input.set _ _).getD i [] =
          (s.sentence_list.getD i []).take ((s.user_input.set _ _).getD i []).length
        by_cases hi : i = s.current_line
        · subst hi
          rw [getD_set_self _ _ _ _ hcl, hlen2, hnew]
        · rw [getD_set_ne _ _ _ _ _ hi]
          exact hb i
      · intro i hi
        show (s.user_input.set _ _).getD i [] = []
        rw [getD_set_ne _ _ _ _ _ (by simp at hi; omega)]
        exact hc i (by simp at hi; omega)
      · show s.current_pos + 1 = ((s.user_input.set _ _).getD s.current_line []).length
        rw [getD_set_self _ _ _ _ hcl, hlen2]

lemma Inv_stepBackspace (s : TTState) (hs : Inv s)
    (hL : s.current_line < s.sentence_list.length) : Inv (stepBackspace s) := by
  obtain ⟨ha, hb, hc, he⟩ := hs
  have hcl : s.current_line < s.user_input.length := by omega
  unfold stepBackspace
  split
  case isTrue hpos =>
    have hbuf : s.user_input.getD s.current_line [] =
        (s.sentence_list.getD s.current_line []).take s.current_pos := by
      have h1 := hb s.current_line
      rw [← he] at h1
      exact h1
    have hple : s.current_pos ≤ (s.sentence_list.getD s.current_line []).length := by
      have h2 : (s.user_input.getD s.current_line []).length = s.current_pos := he.symm
      rw [hbuf, List.length_take] at h2
      omega
    refine ⟨?_, ?_, ?_, ?_⟩
    · show (s.user_input.set _ _).length = _
      rw [List.length_set]
      exact ha
    · intro i
      show (s.user_input.set _ _).getD i [] =
        (s.sentence_list.getD i []).take ((s.user_input.set _ _).getD i []).length
      by_cases hi : i = s.current_line
      · subst hi
        rw [getD_set_self _ _ _ _ hcl,
          show bufAt s = s.user_input.getD s.current_line [] from rfl,
          hbuf, dropLast_take_of_le _ _ hple, List.length_take]
        congr 1
        omega
      · rw [getD_set_ne _ _ _ _ _ hi]
        exact hb i
    · intro i hi
      show (s.user_input.set _ _).getD i [] = []
      have hne : i ≠ s.current_line := by simp at hi; omega
      rw [getD_set_ne _ _ _ _ _ hne]
      exact hc i (by simp at hi; omega)
    · show s.current_pos - 1 = ((s.user_input.set _ _).getD s.current_line []).length
      rw [getD_set_self _ _ _ _ hcl,
        show bufAt s = s.user_input.getD s.current_line [] from rfl,
        hbuf, dropLast_take_of_le _ _ hple, List.length_take]
      omega
  case isFalse hpos =>
    split
    case isTrue hcl0 =>
      refine ⟨ha, hb, ?_, rfl⟩
      intro i hi
      simp at hi
      rcases Nat.lt_or_ge s.current_line i with hgt | hge
      · exact hc i hgt
      · have hieq : i = s.current_line := by omega
        rw [hieq]
        have hz : (s.user_input.getD s.current_line []).length = 0 := by omega
        exact List.length_eq_zero.mp hz
    case isFalse => exact ⟨ha, hb, hc, he⟩

lemma Inv_step (now : ℚ) (k : Nat) (s : TTState) (hs : Inv s)
    (hL : s.current_line < s.sentence_list.length) : Inv (step now k s) := by
  have hw : Inv (withStart now s) := by
    unfold withStart
    split
    · exact hs
    · exact hs
  have hwL : (withStart now s).current_line < (withStart now s).sentence_list.length := by
    simpa using hL
  unfold step
  split
  · exact Inv_stepPrintable k _ hw hwL
  · split
    · exact Inv_stepBackspace _ hw hwL
    · exact hw

lemma Inv_initState (lines : List (List Char)) : Inv (initState lines) := by
  refine ⟨by simp [initState], ?_, ?_, ?_⟩
  · intro i
    simp [initState, getD_replicate_empty]
  · intro i _
    simp [initState, getD_replicate_empty]
  · simp [initState, getD_replicate_empty]

lemma Inv_run (ks : List (ℚ × Nat)) (s : TTState) (hs : Inv s) : Inv (run ks s) := by
  induction ks generalizing s with
  | nil => exact hs
  | cons p ks ih =>
    obtain ⟨t, k⟩ := p
    unfold run
    split
    case isTrue h => exact ih _ (Inv_step t k s hs h)
    case isFalse => exact hs

/-- C9: in every state the key loop can reach from a fresh session —
here while the cursor is still inside the line set, as the claim states —
the current line's input buffer is exactly the prefix of the current line
up to the column, and the column equals that buffer's length. -/
theorem C9_buffer_prefix_invariant (lines : List (List Char)) (ks : List (ℚ × Nat))
    (hL : (run ks (initState lines)).current_line <
      (run ks (initState lines)).sentence_list.length) :
    bufAt (run ks (initState lines)) =
      (lineAt (run ks (initState lines))).take (run ks (initState lines)).current_pos
    ∧ (run ks (initState lines)).current_pos = (bufAt (run ks (initState lines))).length := by
  obtain ⟨ha, hb, hc, he⟩ := Inv_run ks (initState lines) (Inv_initState lines)
  refine ⟨?_, he⟩
  have h1 := hb (run ks (initState lines)).current_line
  rw [← he] at h1
  exact h1

/-! ### Session-level claims: the WPM computation and its faults -/

lemma run_of_empty_lines (ks : List (ℚ × Nat)) : run ks (initState []) = initState [] := by
  cases ks with
  | nil => rfl
  | cons p ks =>
    obtain ⟨t, k⟩ := p
    unfold run
    rw [if_neg (by simp [initState])]

lemma typing_test_model_empty_sentence (title sentence : List Char) (width : Int)
    (keys : List (ℚ × Nat)) (end_now : ℚ)
    (hti : ¬ title = strError)
    (hsent : split_sentence sentence width = [])
    (hend : ¬ end_now = 0) :
    typing_test_model title sentence width keys end_now = some SessionOutcome.typeError := by
  unfold typing_test_model
  rw [if_neg hti, hsent, run_of_empty_lines keys,
    if_neg (by simp [initState]), if_neg hend]
  rfl

lemma typing_test_model_eval (title sentence : List Char) (width : Int)
    (keys : List (ℚ × Nat)) (end_now t0 : ℚ)
    (hti : ¬ title = strError)
    (hdone : ¬ (run keys (initState (split_sentence sentence width))).current_line <
      (split_sentence sentence width).length)
    (hend : ¬ end_now = 0)
    (hstart : (run keys (initState (split_sentence sentence width))).start_time = some t0) :
    typing_test_model title sentence width keys end_now =
      (match display_results_wpm (typing_test_word_count sentence) t0 end_now with
        | Except.error _ => some SessionOutcome.zeroDivisionError
        | Except.ok w => some (SessionOutcome.completed w)) := by
  unfold typing_test_model
  rw [if_neg hti, if_neg hdone, if_neg hend, hstart]

/-- C6: the code does not detect an empty or whitespace-only passage.  The
key loop is skipped (its guard fails at once, for any key events), and the
session falls through to `display_results` with the start timestamp still
unset, producing a `float - None` TypeError — not the API-failure error
display the claim requires. -/
theorem C6_empty_passage_type_fault (keys : List (ℚ × Nat)) :
    typing_test_model titleCat [] 80 keys 5 = some SessionOutcome.typeError
    ∧ typing_test_model titleCat "   ".toList 80 keys 5 = some SessionOutcome.typeError
    ∧ SessionOutcome.typeError ≠ SessionOutcome.apiError := by
  refine ⟨?_, ?_, by decide⟩
  · exact typing_test_model_empty_sentence _ _ _ _ _ (by decide) rfl (by norm_num)
  · exact typing_test_model_empty_sentence _ _ _ _ _ (by decide) rfl (by norm_num)

/-- C7: the code has no policy for a zero elapsed time: `display_results`
divides by `end_time - start_time` unconditionally, so equal timestamps
raise ZeroDivisionError, both in the metric itself and in a full session
whose completion instant equals its first keystroke's timestamp. -/
theorem C7_zero_elapsed_raises (wc : Nat) (t : ℚ) :
    display_results_wpm wc t t = Except.error PyErr.zeroDivision
    ∧ typing_test_model titleCat "ab".toList 80 [((5 : ℚ), 97), ((5 : ℚ), 98)] 5 =
      some SessionOutcome.zeroDivisionError := by
  constructor
  · unfold display_results_wpm
    rw [if_pos (sub_self t)]
  · rw [typing_test_model_eval _ _ _ _ _ 5 (by decide) (by decide) (by norm_num) (by decide)]
    rw [show display_results_wpm (typing_test_word_count "ab".toList) 5 5 =
      Except.error PyErr.zeroDivision from by
        unfold display_results_wpm
        rw [if_pos (sub_self (5 : ℚ))]]

/-- C1 counterexample: on the passage `"a  b"` (two consecutive spaces)
the word count used by the code, `len(sentence.split(" "))`, is 3, while
the passage has only 2 whitespace-delimited tokens. -/
theorem C1_word_count_counterexample :
    typing_test_word_count "a  b".toList = 3
    ∧ (pySplit "a  b".toList).length = 2
    ∧ typing_test_word_count "a  b".toList ≠ (pySplit "a  b".toList).length := by
  exact ⟨rfl, rfl, by decide⟩

/-- C1 (amended): the word count is `len(sentence.split(" "))`, the number
of single-space-separated fields of the normalized passage (equal to the
whitespace token count only when whitespace occurs as single spaces); WPM
is `(wordCount / elapsedSeconds) * 60` whenever the elapsed time is
nonzero; and the scenario passage (9 fields) typed flawlessly with 18
seconds elapsed reports exactly 30 WPM. -/
theorem C1_wpm_formula (s : List Char) (wc : Nat) (t0 t1 : ℚ) (h : ¬ t1 - t0 = 0) :
    typing_test_word_count s = (splitOnSpace s).length
    ∧ display_results_wpm wc t0 t1 = Except.ok ((wc : ℚ) / (t1 - t0) * 60)
    ∧ typing_test_model titleCat foxSentence 80 foxKeys 18 =
      some (SessionOutcome.completed 30) := by
  refine ⟨rfl, ?_, ?_⟩
  · unfold display_results_wpm
    rw [if_neg h]
  · rw [typing_test_model_eval _ _ _ _ _ 0 (by decide) (by decide) (by norm_num) (by decide)]
    rw [show display_results_wpm (typing_test_word_count foxSentence) 0 18 =
      Except.ok 30 from by
        rw [show typing_test_word_count foxSentence = 9 from rfl]
        unfold display_results_wpm
        rw [if_neg (by norm_num : ¬ (18 : ℚ) - 0 = 0)]
        norm_num]

/-- C1 witness: the WPM formula instantiated at the scenario values. -/
theorem C1_wpm_formula_witness :
    display_results_wpm 9 0 18 = Except.ok ((9 : ℚ) / (18 - 0) * 60) :=
  (C1_wpm_formula foxSentence 9 0 18 (by norm_num)).2.1

/-! ### Word preservation and width bound of the line wrapper -/

lemma joinSp_singleton (w : List Char) : joinSp [w] = w := rfl

lemma joinSp_cons_cons (w x : List Char) (ws : List (List Char)) :
    joinSp (w :: x :: ws) = w ++ Char.ofNat 32 :: joinSp (x :: ws) := rfl

lemma pySplitAux_tokens (s : List Char) : ∀ (acc : List Char),
    (∀ c ∈ acc, isSpaceChar c = false) →
    ∀ t ∈ pySplitAux s acc, t ≠ [] ∧ ∀ c ∈ t, isSpaceChar c = false := by
  induction s with
  | nil =>
    intro acc hacc t ht
    unfold pySplitAux at ht
    by_cases hne : acc = []
    · rw [if_pos hne] at ht
      simp at ht
    · rw [if_neg hne] at ht
      simp at ht
      subst ht
      refine ⟨by simpa using hne, ?_⟩
      intro c hc
      exact hacc c (by simpa using hc)
  | cons x xs ih =>
    intro acc hacc t ht
    unfold pySplitAux at ht
    by_cases hx : isSpaceChar x = true
    · rw [if_pos hx] at ht
      by_cases hne : acc = []
      · rw [if_pos hne] at ht
        exact ih [] (by simp) t ht
      · rw [if_neg hne] at ht
        rcases List.mem_cons.mp ht with h1 | h2
        · subst h1
          refine ⟨by simpa using hne, ?_⟩
          intro c hc
          exact hacc c (by simpa using hc)
        · exact ih [] (by simp) t h2
    · rw [if_neg hx] at ht
      refine ih (x :: acc) ?_ t ht
      intro c hc
      rcases List.mem_cons.mp hc with h1 | h2
      · subst h1
        simpa using hx
      · exact hacc c h2

lemma pySplit_tokens (s : List Char) :
    ∀ t ∈ pySplit s, t ≠ [] ∧ ∀ c ∈ t, isSpaceChar c = false :=
  pySplitAux_tokens s [] (by simp)

lemma pySplitAux_append (w : List Char) : ∀ (s acc : List Char),
    (∀ c ∈ w, isSpaceChar c = false) →
    pySplitAux (w ++ s) acc = pySplitAux s (w.reverse ++ acc) := by
  induction w with
  | nil =>
    intro s acc h
    simp
  | cons x xs ih =>
    intro s acc h
    have hx : isSpaceChar x = false := h x (by simp)
    have hcons : pySplitAux ((x :: xs) ++ s) acc = pySplitAux (xs ++ s) (x :: acc) := by
      show pySplitAux (x :: (xs ++ s)) acc = pySplitAux (xs ++ s) (x :: acc)
      conv_lhs => unfold pySplitAux
      rw [if_neg (by simp [hx])]
    rw [hcons, ih s (x :: acc) (fun c hc => h c (by simp [hc]))]
    congr 1
    simp

lemma pySplitAux_no_space (w acc : List Char) (h : ∀ c ∈ w, isSpaceChar c = false) :
    pySplitAux w acc =
      if w.reverse ++ acc = [] then [] else [(w.reverse ++ acc).reverse] := by
  have h1 := pySplitAux_append w [] acc h
  rw [List.append_nil] at h1
  rw [h1]
  rfl

lemma pySplit_joinSp (ws : List (List Char))
    (h : ∀ w ∈ ws, w ≠ [] ∧ ∀ c ∈ w, isSpaceChar c = false) :
    pySplit (joinSp ws) = ws := by
  induction ws with
  | nil => rfl
  | cons w ws ih =>
    cases ws with
    | nil =>
      obtain ⟨hw, hwc⟩ := h w (by simp)
      show pySplitAux (joinSp [w]) [] = [w]
      rw [joinSp_singleton, pySplitAux_no_space w [] hwc]
      rw [if_neg (by simpa using hw)]
      simp
    | cons x ws2 =>
      obtain ⟨hw, hwc⟩ := h w (by simp)
      rw [joinSp_cons_cons]
      show pySplitAux (w ++ Char.ofNat 32 :: joinSp (x :: ws2)) [] = _
      rw [pySplitAux_append w _ [] hwc, List.append_nil]
      unfold pySplitAux
      rw [if_pos (by decide : isSpaceChar (Char.ofNat 32) = true)]
      rw [if_neg (by simpa using hw)]
      rw [List.reverse_reverse]
      congr 1
      exact ih (fun u hu => h u (by simp [hu]))

lemma greedyAux_flatten (safe : Nat) : ∀ (rest cur : List (List Char)),
    (greedyAux safe cur rest).flatten = cur ++ rest := by
  intro rest
  induction rest with
  | nil =>
    intro cur
    unfold greedyAux
    by_cases hc : cur = []
    · rw [if_pos hc, hc]
      rfl
    · rw [if_neg hc]
      simp
  | cons w r ih =>
    intro cur
    unfold greedyAux
    by_cases hc : cur = []
    · rw [if_pos hc, ih [w], hc]
      rfl
    · rw [if_neg hc]
      by_cases hfit : (joinSp cur).length + 1 + w.length ≤ safe
      · rw [if_pos hfit, ih (cur ++ [w])]
        simp
      · rw [if_neg hfit]
        rw [List.flatten_cons, ih [w]]
        rfl

lemma greedyAux_ne_nil (safe : Nat) : ∀ (rest cur : List (List Char)),
    ∀ g ∈ greedyAux safe cur rest, g ≠ [] := by
  intro rest
  induction rest with
  | nil =>
    intro cur g hg
    unfold greedyAux at hg
    by_cases hc : cur = []
    · rw [if_pos hc] at hg
      simp at hg
    · rw [if_neg hc] at hg
      simp at hg
      subst hg
      exact hc
  | cons w r ih =>
    intro cur g hg
    unfold greedyAux at hg
    by_cases hc : cur = []
    · rw [if_pos hc] at hg
      exact ih [w] g hg
    · rw [if_neg hc] at hg
      by_cases hfit : (joinSp cur).length + 1 + w.length ≤ safe
      · rw [if_pos hfit] at hg
        exact ih (cur ++ [w]) g hg
      · rw [if_neg hfit] at hg
        rcases List.mem_cons.mp hg with h1 | h2
        · subst h1
          exact hc
        · exact ih [w] g h2

lemma joinSp_append (a : List (List Char)) : ∀ (b : List (List Char)), a ≠ [] → b ≠ [] →
    joinSp (a ++ b) = joinSp a ++ Char.ofNat 32 :: joinSp b := by
  induction a with
  | nil =>
    intro b ha _
    exact absurd rfl ha
  | cons w a2 ih =>
    intro b _ hb
    cases a2 with
    | nil =>
      cases b with
      | nil => exact absurd rfl hb
      | cons x b2 =>
        show joinSp (w :: x :: b2) = joinSp [w] ++ Char.ofNat 32 :: joinSp (x :: b2)
        rw [joinSp_cons_cons, joinSp_singleton]
    | cons y a3 =>
      have ih2 := ih b (by simp) hb
      rw [List.cons_append] at ih2
      rw [List.cons_append, List.cons_append, joinSp_cons_cons, ih2, joinSp_cons_cons]
      simp

lemma joinSp_ne_nil (g : List (List Char)) (hg : g ≠ [])
    (hw : ∀ w ∈ g, w ≠ []) : joinSp g ≠ [] := by
  cases g with
  | nil => exact absurd rfl hg
  | cons w g2 =>
    cases g2 with
    | nil => exact hw w (by simp)
    | cons x g3 =>
      rw [joinSp_cons_cons]
      simp

lemma joinSp_map_joinSp (groups : List (List (List Char)))
    (h : ∀ g ∈ groups, g ≠ []) :
    joinSp (groups.map joinSp) = joinSp groups.flatten := by
  induction groups with
  | nil => rfl
  | cons g gs ih =>
    cases gs with
    | nil =>
      show joinSp [joinSp g] = joinSp (g ++ [].flatten)
      rw [joinSp_singleton]
      simp
    | cons g2 gs2 =>
      have hg : g ≠ [] := h g (by simp)
      have hg2 : g2 ≠ [] := h g2 (by simp)
      have hflat : (g2 :: gs2).flatten ≠ [] := by
        rw [List.flatten_cons]
        simp [hg2]
      rw [List.map_cons, List.map_cons, joinSp_cons_cons, ← List.map_cons,
        ih (fun u hu => h u (by simp [hu]))]
      conv_rhs => rw [List.flatten_cons]
      rw [joinSp_append g _ hg hflat]

lemma split_sentence_eq (input_str : List Char) (terminal_width : Int)
    (hw : ¬ pySplit input_str = []) :
    split_sentence input_str terminal_width =
      (greedyAux (safe_width terminal_width) [] (pySplit input_str)).map joinSp := by
  unfold split_sentence
  rw [if_neg hw]
  have hck : ¬ (((greedyAux (safe_width terminal_width) [] (pySplit input_str)).map
        joinSp).length = 1
      ∧ ((greedyAux (safe_width terminal_width) [] (pySplit input_str)).map
        joinSp).headD [] = []) := by
    rintro ⟨hlen, hhead⟩
    rw [List.length_map] at hlen
    obtain ⟨g, hg⟩ := List.length_eq_one.mp hlen
    rw [hg] at hhead
    simp at hhead
    have hgmem : g ∈ greedyAux (safe_width terminal_width) [] (pySplit input_str) := by
      rw [hg]
      simp
    have hgne := greedyAux_ne_nil (safe_width terminal_width) (pySplit input_str) [] g hgmem
    have hwne : ∀ u ∈ g, u ≠ [] := by
      intro u hu
      have hmem : u ∈ pySplit input_str := by
        have h2 : u ∈ (greedyAux (safe_width terminal_width) [] (pySplit input_str)).flatten :=
          List.mem_flatten.mpr ⟨g, hgmem, hu⟩
        rwa [greedyAux_flatten, List.nil_append] at h2
      exact (pySplit_tokens input_str u hmem).1
    exact joinSp_ne_nil g hgne hwne hhead
  rw [if_neg hck]

/-- C4: joining the wrapped lines with single spaces and splitting on
whitespace reproduces exactly the whitespace-token sequence of the
original passage: no word is split, dropped, duplicated or reordered. -/
theorem C4_wrap_preserves_words (P : List Char) (W : Int) (hW : 1 ≤ W) :
    pySplit (joinSp (split_sentence P W)) = pySplit P := by
  by_cases hw : pySplit P = []
  · unfold split_sentence
    rw [if_pos hw, hw]
    rfl
  · rw [split_sentence_eq P W hw]
    rw [joinSp_map_joinSp _ (fun g hg => greedyAux_ne_nil (safe_width W) (pySplit P) [] g hg)]
    rw [greedyAux_flatten, List.nil_append]
    exact pySplit_joinSp _ (pySplit_tokens P)

/-- C4 witness: the scenario passage wrapped at width 20 (effective width
5) re-splits to its original word sequence. -/
theorem C4_wrap_preserves_words_witness :
    pySplit (joinSp (split_sentence "the quick brown".toList 20)) =
      pySplit "the quick brown".toList :=
  C4_wrap_preserves_words "the quick brown".toList 20 (by norm_num)

lemma greedyAux_line_bound (safe : Nat) : ∀ (rest cur : List (List Char)),
    (cur.length ≤ 1 ∨ (joinSp cur).length ≤ safe) →
    ∀ g ∈ greedyAux safe cur rest, g.length ≤ 1 ∨ (joinSp g).length ≤ safe := by
  intro rest
  induction rest with
  | nil =>
    intro cur hcur g hg
    unfold greedyAux at hg
    by_cases hc : cur = []
    · rw [if_pos hc] at hg
      simp at hg
    · rw [if_neg hc] at hg
      simp at hg
      subst hg
      exact hcur
  | cons w r ih =>
    intro cur hcur g hg
    unfold greedyAux at hg
    by_cases hc : cur = []
    · rw [if_pos hc] at hg
      exact ih [w] (Or.inl (by simp)) g hg
    · rw [if_neg hc] at hg
      by_cases hfit : (joinSp cur).length + 1 + w.length ≤ safe
      · rw [if_pos hfit] at hg
        refine ih (cur ++ [w]) (Or.inr ?_) g hg
        rw [joinSp_append cur [w] hc (by simp), joinSp_singleton]
        simp only [List.length_append, List.length_cons]
        omega
      · rw [if_neg hfit] at hg
        rcases List.mem_cons.mp hg with h1 | h2
        · subst h1
          exact hcur
        · exact ih [w] (Or.inl (by simp)) g h2

/-- C5: every wrapped line has length at most the effective width
`max(W - 15, 1)`, except a line consisting of a single word of the
passage (kept whole, never split or truncated) longer than that width. -/
theorem C5_wrap_width_bound (P : List Char) (W : Int) (l : List Char)
    (hl : l ∈ split_sentence P W) :
    l.length ≤ safe_width W ∨ (l ∈ pySplit P ∧ safe_width W < l.length) := by
  by_cases hw : pySplit P = []
  · unfold split_sentence at hl
    rw [if_pos hw] at hl
    simp at hl
  · rw [split_sentence_eq P W hw] at hl
    rcases List.mem_map.mp hl with ⟨g, hgmem, rfl⟩
    have hbound := greedyAux_line_bound (safe_width W) (pySplit P) []
      (Or.inl (by simp)) g hgmem
    rcases hbound with hsmall | hfits
    · have hgne := greedyAux_ne_nil (safe_width W) (pySplit P) [] g hgmem
      obtain ⟨w, rfl⟩ : ∃ w, g = [w] := by
        cases g with
        | nil => exact absurd rfl hgne
        | cons a g2 =>
          cases g2 with
          | nil => exact ⟨a, rfl⟩
          | cons b g3 => simp at hsmall
      have hmem : w ∈ pySplit P := by
        have h2 : w ∈ (greedyAux (safe_width W) [] (pySplit P)).flatten :=
          List.mem_flatten.mpr ⟨[w], hgmem, by simp⟩
        rwa [greedyAux_flatten, List.nil_append] at h2
      by_cases hlen : (joinSp [w]).length ≤ safe_width W
      · exact Or.inl hlen
      · refine Or.inr ⟨?_, by omega⟩
        rw [joinSp_singleton]
        exact hmem
    · exact Or.inl hfits

/-- C5 witness: at width 80 the passage `"ab cd"` wraps to the single line
`"ab cd"`, which satisfies the width bound. -/
theorem C5_wrap_width_bound_witness :
    "ab cd".toList ∈ split_sentence "ab cd".toList 80 ∧
    ("ab cd".toList.length ≤ safe_width 80 ∨
      ("ab cd".toList ∈ pySplit "ab cd".toList ∧ safe_width 80 < "ab cd".toList.length)) :=
  ⟨by decide, C5_wrap_width_bound "ab cd".toList 80 "ab cd".toList (by decide)⟩

/-- C9 witness: after typing `a` then `x` (rejected) then `b` on the lines
`"ab"`, `"cd"`, the state is at line 1 column 0 with buffers `["ab", ""]`,
and the invariant instantiates there. -/
theorem C9_buffer_prefix_invariant_witness :
    bufAt (run [((1 : ℚ), 97), ((1 : ℚ), 120), ((1 : ℚ), 98)]
        (initState ["ab".toList, "cd".toList])) =
      (lineAt (run [((1 : ℚ), 97), ((1 : ℚ), 120), ((1 : ℚ), 98)]
        (initState ["ab".toList, "cd".toList]))).take
        (run [((1 : ℚ), 97), ((1 : ℚ), 120), ((1 : ℚ), 98)]
          (initState ["ab".toList, "cd".toList])).current_pos := by
  exact (C9_buffer_prefix_invariant ["ab".toList, "cd".toList]
    [((1 : ℚ), 97), ((1 : ℚ), 120), ((1 : ℚ), 98)] (by decide)).1

end TypingTest
